import Mathlib

/-!
Verification of the `serde-json-wasm` core: the JSON value encoder
(`src/ser/mod.rs`, `src/ser/map.rs`) and the JSON string-literal unescaper
(`src/de/unescape.rs`).

Bytes and Unicode scalar values are modelled as `Nat`.  A Rust `String` /
`&str` is modelled as a `List Nat` of Unicode scalar values (Rust `char`s);
a byte buffer (`Vec<u8>` / `&[u8]`) is a `List Nat` of bytes.
-/

/-- Unicode scalar value: any code point except the UTF-16 surrogate range,
below 0x110000.  This is exactly the set of values a Rust `char` can hold. -/
abbrev isScalar (c : Nat) : Prop := c < 0xD800 ∨ (0xE000 ≤ c ∧ c < 0x110000)

/-- UTF-8 encoding of one Unicode scalar value, as produced by Rust's
`char::encode_utf8`. -/
def utf8EncodeChar (c : Nat) : List Nat :=
  if c < 0x80 then [c]
  else if c < 0x800 then [0xC0 + c / 64, 0x80 + c % 64]
  else if c < 0x10000 then
    [0xE0 + c / 4096, 0x80 + (c / 64) % 64, 0x80 + c % 64]
  else
    [0xF0 + c / 262144, 0x80 + (c / 4096) % 64, 0x80 + (c / 64) % 64, 0x80 + c % 64]

mutual

/-- UTF-8 validation and decoding of a byte sequence into scalar values,
as performed by Rust's `String::from_utf8` (rejecting overlong forms,
surrogates and out-of-range values): returns `none` exactly on invalid
UTF-8.  The continuation-byte handling of 2-, 3- and 4-byte sequences is
split into the mutually recursive helpers below, one per sequence length. -/
def utf8Decode : List Nat → Option (List Nat)
  | [] => some []
  | b1 :: rest =>
    if b1 < 0x80 then (utf8Decode rest).map (fun cs => b1 :: cs)
    else if 0xC2 ≤ b1 ∧ b1 ≤ 0xDF then utf8Decode2 b1 rest
    else if 0xE0 ≤ b1 ∧ b1 ≤ 0xEF then utf8Decode3 b1 rest
    else if 0xF0 ≤ b1 ∧ b1 ≤ 0xF4 then utf8Decode4 b1 rest
    else none

/-- Continuation of `utf8Decode` after the lead byte `b1` of a 2-byte
sequence. -/
def utf8Decode2 (b1 : Nat) : List Nat → Option (List Nat)
  | b2 :: rest2 =>
    if 0x80 ≤ b2 ∧ b2 ≤ 0xBF then
      (utf8Decode rest2).map (fun cs => ((b1 - 0xC0) * 64 + (b2 - 0x80)) :: cs)
    else none
  | [] => none

/-- Continuation of `utf8Decode` after the lead byte `b1` of a 3-byte
sequence (`0xE0` and `0xED` lead bytes restrict the first continuation
byte, excluding overlong forms and surrogates). -/
def utf8Decode3 (b1 : Nat) : List Nat → Option (List Nat)
  | b2 :: b3 :: rest3 =>
    if ((b1 = 0xE0 ∧ 0xA0 ≤ b2 ∧ b2 ≤ 0xBF) ∨
        (b1 = 0xED ∧ 0x80 ≤ b2 ∧ b2 ≤ 0x9F) ∨
        (b1 ≠ 0xE0 ∧ b1 ≠ 0xED ∧ 0x80 ≤ b2 ∧ b2 ≤ 0xBF)) ∧
       (0x80 ≤ b3 ∧ b3 ≤ 0xBF) then
      (utf8Decode rest3).map
        (fun cs => ((b1 - 0xE0) * 4096 + (b2 - 0x80) * 64 + (b3 - 0x80)) :: cs)
    else none
  | _ => none

/-- Continuation of `utf8Decode` after the lead byte `b1` of a 4-byte
sequence (`0xF0` and `0xF4` lead bytes restrict the first continuation
byte, excluding overlong forms and values above 0x10FFFF). -/
def utf8Decode4 (b1 : Nat) : List Nat → Option (List Nat)
  | b2 :: b3 :: b4 :: rest4 =>
    if ((b1 = 0xF0 ∧ 0x90 ≤ b2 ∧ b2 ≤ 0xBF) ∨
        (b1 = 0xF4 ∧ 0x80 ≤ b2 ∧ b2 ≤ 0x8F) ∨
        (b1 ≠ 0xF0 ∧ b1 ≠ 0xF4 ∧ 0x80 ≤ b2 ∧ b2 ≤ 0xBF)) ∧
       (0x80 ≤ b3 ∧ b3 ≤ 0xBF) ∧ (0x80 ≤ b4 ∧ b4 ≤ 0xBF) then
      (utf8Decode rest4).map
        (fun cs =>
          ((b1 - 0xF0) * 262144 + (b2 - 0x80) * 4096 + (b3 - 0x80) * 64 +
            (b4 - 0x80)) :: cs)
    else none
  | _ => none
end

/-! ## String escaper — `serialize_str` in `src/ser/mod.rs` -/

/-- Upper-case hex for value in 0..16, encoded as ASCII bytes
(`hex_4bit` in `src/ser/mod.rs`). -/
def hex_4bit (c : Nat) : Nat :=
  if c ≤ 9 then 0x30 + c else 0x41 + (c - 10)

/-- Upper-case hex for value in 0..256, encoded as ASCII bytes
(`hex` in `src/ser/mod.rs`; `>> 4` and `& 0x0F` on a byte). -/
def hex (c : Nat) : Nat × Nat :=
  (hex_4bit (c >>> 4), hex_4bit (c &&& 0x0F))

/-- Escape of one character of the input string: the body of the `for c in
v.chars()` loop of `serialize_str` in `src/ser/mod.rs`, with the match arms
in source order.  `hex (c as u8)` keeps only the low byte; in the reached
branch `c ≤ 0x1F`, so the cast is the identity. -/
def escapeChar (c : Nat) : List Nat :=
  if c = 0x5C then [0x5C, 0x5C]
  else if c = 0x22 then [0x5C, 0x22]
  else if c = 0x08 then [0x5C, 0x62]
  else if c = 0x09 then [0x5C, 0x74]
  else if c = 0x0A then [0x5C, 0x6E]
  else if c = 0x0C then [0x5C, 0x66]
  else if c = 0x0D then [0x5C, 0x72]
  else if c ≤ 0x1F then [0x5C, 0x75, 0x30, 0x30, (hex c).1, (hex c).2]
  else utf8EncodeChar c

/-- Bytes appended to the buffer by `serialize_str` in `src/ser/mod.rs`:
a leading quote, the escape of every character in order, a trailing quote. -/
def serialize_str (s : List Nat) : List Nat :=
  0x22 :: (s.map escapeChar).flatten ++ [0x22]

/-! ## String unescaper — `unescape` in `src/de/unescape.rs` -/

/-- Error type of the unescaper (`Error::InvalidEscape` /
`Error::InvalidUnicodeCodePoint` in `src/de/errors.rs`, as used by
`src/de/unescape.rs`). -/
inductive UnescapeError where
  | InvalidEscape : UnescapeError
  | InvalidUnicodeCodePoint : UnescapeError
deriving DecidableEq

/-- ASCII control constant `BACKSPACE` of `src/de/unescape.rs`. -/
def BACKSPACE : Nat := 0x08

/-- ASCII control constant `FORMFEED` of `src/de/unescape.rs`. -/
def FORMFEED : Nat := 0x0C

/-- ASCII control constant `LINEFEED` of `src/de/unescape.rs`. -/
def LINEFEED : Nat := 0x0A

/-- ASCII control constant `CARRIAGE_RETURN` of `src/de/unescape.rs`. -/
def CARRIAGE_RETURN : Nat := 0x0D

/-- ASCII control constant `HORIZONTAL_TAB` of `src/de/unescape.rs`. -/
def HORIZONTAL_TAB : Nat := 0x09

/-- Hex digit byte, the range pattern `b'0'..=b'9' | b'a'..=b'f' | b'A'..=b'F'`
of `src/de/unescape.rs`. -/
abbrev isHexDigitByte (b : Nat) : Prop :=
  (0x30 ≤ b ∧ b ≤ 0x39) ∨ (0x61 ≤ b ∧ b ≤ 0x66) ∨ (0x41 ≤ b ∧ b ≤ 0x46)

/-- Decodes a single hex character into its numeric value
(`hex_decode_4bit` in `src/de/unescape.rs`).  The source panics on a
non-hex byte; `unescape` guards every call with the hex-digit range
pattern, so that arm is unreachable and is given the value 0 here. -/
def hex_decode_4bit (x : Nat) : Nat :=
  if 0x30 ≤ x ∧ x ≤ 0x39 then x - 0x30
  else if 0x41 ≤ x ∧ x ≤ 0x46 then x - 0x41 + 10
  else if 0x61 ≤ x ∧ x ≤ 0x66 then x - 0x61 + 10
  else 0

/-- Codepoint of four hex digit bytes (`hex_decode` in `src/de/unescape.rs`,
a shift-and-or of the four nibbles). -/
def hex_decode (a b c d : Nat) : Nat :=
  (hex_decode_4bit a) <<< 12 ||| (hex_decode_4bit b) <<< 8 |||
    (hex_decode_4bit c) <<< 4 ||| (hex_decode_4bit d)

/-- `char::try_from` on a `u32` codepoint: succeeds exactly on Unicode
scalar values (rejects surrogates and values above 0x10FFFF). -/
def charTryFrom (n : Nat) : Option Nat :=
  if n < 0xD800 ∨ (0xE000 ≤ n ∧ n < 0x110000) then some n else none

/-- The byte loop of `unescape` in `src/de/unescape.rs`.  Arguments after
the remaining input mirror the loop state: `opn` is the `open` flag, `inU`
is `in_unicode`, `tmp` is `unicode_tmp`, `out` is the output buffer.  When
the input is exhausted the assembled bytes are UTF-8 validated
(`String::from_utf8`), with failure mapped to `InvalidUnicodeCodePoint`;
the source performs no end-of-input check on `open` / `in_unicode`. -/
def unescapeLoop : List Nat → Bool → Bool → List Nat → List Nat →
    Except UnescapeError (List Nat)
  | [], _, _, _, out =>
    match utf8Decode out with
    | some s => .ok s
    | none => .error .InvalidUnicodeCodePoint
  | byte :: rest, opn, inU, tmp, out =>
    if inU then
      if isHexDigitByte byte then
        match tmp ++ [byte] with
        | [a, b, c, d] =>
          match charTryFrom (hex_decode a b c d) with
          | some cp => unescapeLoop rest false false [] (out ++ utf8EncodeChar cp)
          | none => .error .InvalidEscape
        | tmp2 => unescapeLoop rest opn true tmp2 out
      else .error .InvalidEscape
    else if opn then
      if byte = 0x22 ∨ byte = 0x2F ∨ byte = 0x5C then
        unescapeLoop rest false inU tmp (out ++ [byte])
      else if byte = 0x62 then unescapeLoop rest false inU tmp (out ++ [BACKSPACE])
      else if byte = 0x66 then unescapeLoop rest false inU tmp (out ++ [FORMFEED])
      else if byte = 0x6E then unescapeLoop rest false inU tmp (out ++ [LINEFEED])
      else if byte = 0x72 then unescapeLoop rest false inU tmp (out ++ [CARRIAGE_RETURN])
      else if byte = 0x74 then unescapeLoop rest false inU tmp (out ++ [HORIZONTAL_TAB])
      else if byte = 0x75 then unescapeLoop rest opn true tmp out
      else .error .InvalidEscape
    else
      if byte = 0x5C then unescapeLoop rest true inU tmp out
      else unescapeLoop rest opn inU tmp (out ++ [byte])

/-- `unescape` in `src/de/unescape.rs`: run the byte loop from the initial
state (`open = false`, `in_unicode = false`, empty `unicode_tmp`, empty
output). -/
def unescape (source : List Nat) : Except UnescapeError (List Nat) :=
  unescapeLoop source false false [] []

example : unescape [0x61, 0x62] = .ok [0x61, 0x62] := rfl
example : unescape [0x5C, 0x6E] = .ok [0x0A] := rfl
example : unescape [0x5C, 0x75, 0x30, 0x30, 0x34, 0x31] = .ok [0x41] := rfl
example : unescape [0x5C, 0x78] = .error .InvalidEscape := rfl
example : unescape [0x5C, 0x75, 0x44, 0x45, 0x41, 0x44] = .error .InvalidEscape := rfl
example : unescape [0xFF] = .error .InvalidUnicodeCodePoint := rfl
example : unescape [0x5C] = .ok [] := rfl
example : unescape [0xF0, 0x9F, 0x91, 0x8F] = .ok [0x1F44F] := rfl
example : serialize_str [0x61, 0x22] = [0x22, 0x61, 0x5C, 0x22, 0x22] := by decide
example : serialize_str [0x1F] = [0x22, 0x5C, 0x75, 0x30, 0x30, 0x31, 0x46, 0x22] := by decide

/-! ## Numeric primitives — `serialize_unsigned!` / `serialize_signed!` in
`src/ser/mod.rs` -/

/-- Decimal ASCII bytes emitted by the digit loop shared by the
`serialize_unsigned!` and `serialize_signed!` macros of `src/ser/mod.rs`:
repeated division by 10 fills a fixed scratch buffer backward from its last
slot and the slice from the pivot on is appended, i.e. the digits of the
value most-significant first (the `$N` buffer size only bounds the scratch
space and never affects the emitted bytes for an in-range value). -/
def unsignedDigits (v : Nat) : List Nat :=
  if v < 10 then [0x30 + v]
  else unsignedDigits (v / 10) ++ [0x30 + v % 10]
decreasing_by exact Nat.div_lt_self (by omega) (by omega)

/-- `serialize_u8` in `src/ser/mod.rs` (`serialize_unsigned!` with N = 3). -/
def serialize_u8 (v : Nat) : List Nat := unsignedDigits v

/-- `serialize_u16` in `src/ser/mod.rs` (`serialize_unsigned!` with N = 5). -/
def serialize_u16 (v : Nat) : List Nat := unsignedDigits v

/-- `serialize_u32` in `src/ser/mod.rs` (`serialize_unsigned!` with N = 10). -/
def serialize_u32 (v : Nat) : List Nat := unsignedDigits v

/-- `serialize_u64` in `src/ser/mod.rs` (`serialize_unsigned!` with N = 20). -/
def serialize_u64 (v : Nat) : List Nat := unsignedDigits v

/-- The `serialize_signed!` macro of `src/ser/mod.rs` for a signed width
whose minimum value is `-half` (so `half = $ixx::max_value() as $uxx + 1`):
the minimum value takes its two's-complement magnitude `half` directly
(negating it would overflow), other negatives are negated into the unsigned
type, then the shared digit loop runs and a `-` is prefixed when negative. -/
def serialize_signed (half : Nat) (v : Int) : List Nat :=
  if v = -(half : Int) then 0x2D :: unsignedDigits half
  else if v < 0 then 0x2D :: unsignedDigits (-v).toNat
  else unsignedDigits v.toNat

/-- `serialize_i8` in `src/ser/mod.rs` (`serialize_signed!` with N = 4). -/
def serialize_i8 (v : Int) : List Nat := serialize_signed 128 v

/-- `serialize_i16` in `src/ser/mod.rs` (`serialize_signed!` with N = 6). -/
def serialize_i16 (v : Int) : List Nat := serialize_signed 32768 v

/-- `serialize_i32` in `src/ser/mod.rs` (`serialize_signed!` with N = 11). -/
def serialize_i32 (v : Int) : List Nat := serialize_signed 2147483648 v

/-- `serialize_i64` in `src/ser/mod.rs` (`serialize_signed!` with N = 20). -/
def serialize_i64 (v : Int) : List Nat := serialize_signed 9223372036854775808 v

/-! ## Spec-side decimal parsing (for the round-trip claim about numbers) -/

/-- ASCII decimal digit byte. -/
abbrev isDigitByte (b : Nat) : Prop := 0x30 ≤ b ∧ b ≤ 0x39

/-- Standard decimal parsing of an unsigned number: a non-empty run of
digits, most-significant first (leading zeros accepted, as standard). -/
def parseUnsignedDec (bs : List Nat) : Option Nat :=
  if bs ≠ [] ∧ ∀ b ∈ bs, isDigitByte b then
    some (bs.foldl (fun a b => a * 10 + (b - 0x30)) 0)
  else none

/-- Standard decimal parsing of an integer: an optional leading `-`
followed by a non-empty run of digits. -/
def parseDec (bs : List Nat) : Option Int :=
  if bs.head? = some 0x2D then (parseUnsignedDec bs.tail).map (fun n => -(n : Int))
  else (parseUnsignedDec bs).map (fun n => (n : Int))

/-- No leading zeros, except the literal `0` itself. -/
def noLeadingZeros (ds : List Nat) : Prop :=
  ds = [0x30] ∨ ds.head? ≠ some 0x30

/-- The decimal-output contract of the claim: the bytes parse back to the
original value, start with `-` exactly when the value is negative, and the
digit part has no leading zeros. -/
def decRendering (bytes : List Nat) (v : Int) : Prop :=
  parseDec bytes = some v ∧ (v < 0 ↔ bytes.head? = some 0x2D) ∧
    noLeadingZeros (if v < 0 then bytes.tail else bytes)

theorem unsignedDigits_all_digits (v : Nat) : ∀ b ∈ unsignedDigits v, isDigitByte b := by
  induction v using unsignedDigits.induct with
  | case1 v h => unfold unsignedDigits; simp only [if_pos h]; intro b hb
                 simp only [List.mem_singleton] at hb; subst hb; constructor <;> omega
  | case2 v h ih =>
      unfold unsignedDigits; simp only [if_neg h]; intro b hb
      rcases List.mem_append.mp hb with h1 | h2
      · exact ih b h1
      · simp only [List.mem_singleton] at h2; subst h2
        constructor <;> omega

theorem unsignedDigits_ne_nil (v : Nat) : unsignedDigits v ≠ [] := by
  unfold unsignedDigits
  split
  · simp
  · simp

theorem unsignedDigits_foldl (v : Nat) :
    (unsignedDigits v).foldl (fun a b => a * 10 + (b - 0x30)) 0 = v := by
  induction v using unsignedDigits.induct with
  | case1 v h => unfold unsignedDigits; simp only [if_pos h, List.foldl_cons, List.foldl_nil]; omega
  | case2 v h ih =>
      unfold unsignedDigits
      simp only [if_neg h, List.foldl_append, List.foldl_cons, List.foldl_nil, ih]
      omega

theorem parseUnsignedDec_unsignedDigits (v : Nat) :
    parseUnsignedDec (unsignedDigits v) = some v := by
  unfold parseUnsignedDec
  rw [if_pos ⟨unsignedDigits_ne_nil v, unsignedDigits_all_digits v⟩, unsignedDigits_foldl]

theorem unsignedDigits_head_digit (v : Nat) :
    ∃ d ds, unsignedDigits v = d :: ds ∧ isDigitByte d := by
  rcases h : unsignedDigits v with _ | ⟨d, ds⟩
  · exact absurd h (unsignedDigits_ne_nil v)
  · exact ⟨d, ds, rfl, unsignedDigits_all_digits v d (h ▸ List.mem_cons_self d ds)⟩

theorem unsignedDigits_noLeadingZeros (v : Nat) : noLeadingZeros (unsignedDigits v) := by
  induction v using unsignedDigits.induct with
  | case1 v h =>
      unfold unsignedDigits noLeadingZeros
      rw [if_pos h]
      by_cases hv : v = 0
      · subst hv; left; rfl
      · right; simp; omega
  | case2 v h ih =>
      unfold unsignedDigits noLeadingZeros
      rw [if_neg h]
      right
      obtain ⟨d, ds, hd, _⟩ := unsignedDigits_head_digit (v / 10)
      rw [hd, List.cons_append, List.head?_cons]
      intro hcon
      injection hcon with hd0
      rcases ih with h1 | h2
      · have hfold := unsignedDigits_foldl (v / 10)
        rw [h1] at hfold
        simp only [List.foldl_cons, List.foldl_nil] at hfold
        omega
      · rw [hd, List.head?_cons] at h2
        exact h2 (by rw [hd0])

theorem unsigned_decRendering (v : Nat) : decRendering (unsignedDigits v) (v : Int) := by
  obtain ⟨d, ds, hd, hdig⟩ := unsignedDigits_head_digit v
  have hhead : (unsignedDigits v).head? ≠ some 0x2D := by
    rw [hd, List.head?_cons]
    intro hcon
    injection hcon with h1
    rcases hdig with ⟨h2, h3⟩
    omega
  refine ⟨?_, ?_, ?_⟩
  · unfold parseDec
    rw [if_neg hhead, parseUnsignedDec_unsignedDigits]
    rfl
  · constructor
    · intro hneg; exact absurd hneg (by omega)
    · intro hcon; exact absurd hcon hhead
  · rw [if_neg (show ¬((v : Int) < 0) by omega)]
    exact unsignedDigits_noLeadingZeros v

theorem signed_decRendering (half : Nat) (hpos : 0 < half) (v : Int)
    (hlo : -(half : Int) ≤ v) (hhi : v < (half : Int)) :
    decRendering (serialize_signed half v) v := by
  unfold serialize_signed
  by_cases hmin : v = -(half : Int)
  · rw [if_pos hmin]
    have hvneg : v < 0 := by omega
    refine ⟨?_, ?_, ?_⟩
    · unfold parseDec
      rw [List.head?_cons, if_pos rfl, List.tail_cons, parseUnsignedDec_unsignedDigits]
      rw [hmin]
      rfl
    · rw [List.head?_cons]
      exact iff_of_true hvneg rfl
    · rw [if_pos hvneg, List.tail_cons]
      exact unsignedDigits_noLeadingZeros half
  · rw [if_neg hmin]
    by_cases hneg : v < 0
    · rw [if_pos hneg]
      refine ⟨?_, ?_, ?_⟩
      · unfold parseDec
        rw [List.head?_cons, if_pos rfl, List.tail_cons, parseUnsignedDec_unsignedDigits]
        show some (-((-v).toNat : Int)) = some v
        congr 1
        omega
      · rw [List.head?_cons]
        exact iff_of_true hneg rfl
      · rw [if_pos hneg, List.tail_cons]
        exact unsignedDigits_noLeadingZeros (-v).toNat
    · rw [if_neg hneg]
      have h1 := unsigned_decRendering v.toNat
      have h2 : (v.toNat : Int) = v := by omega
      rwa [h2] at h1

/-! ## Claim-side statement of the escaping rule (C1) -/

/-- Modelled from the spec: the uppercase hexadecimal digit of a nibble,
`0`–`9` then `A`–`F`. -/
def nibbleUpperHex (n : Nat) : Nat :=
  if n < 10 then 0x30 + n else 0x37 + n

/-- Modelled from the spec: the per-character escaping rule exactly as the
spec words it — `\` and `"` get two-character escapes, the five named
control characters get their one-letter short escapes, every other code
point in U+0000–U+001F becomes `\u00XX` with `XX` the uppercase hex of the
low byte, and every other code point is copied as its UTF-8 encoding
verbatim (no other character is escaped). -/
def escapeCharSpec (c : Nat) : List Nat :=
  if c = 0x5C then [0x5C, 0x5C]
  else if c = 0x22 then [0x5C, 0x22]
  else if c = 0x08 then [0x5C, 0x62]
  else if c = 0x09 then [0x5C, 0x74]
  else if c = 0x0A then [0x5C, 0x6E]
  else if c = 0x0C then [0x5C, 0x66]
  else if c = 0x0D then [0x5C, 0x72]
  else if c < 0x20 then
    [0x5C, 0x75, 0x30, 0x30, nibbleUpperHex (c / 16), nibbleUpperHex (c % 16)]
  else utf8EncodeChar c

theorem hex_small_eq (c : Nat) (h : c < 0x20) :
    (hex c).1 = nibbleUpperHex (c / 16) ∧ (hex c).2 = nibbleUpperHex (c % 16) := by
  revert h
  revert c
  decide

theorem escapeChar_eq_spec (c : Nat) : escapeChar c = escapeCharSpec c := by
  unfold escapeChar escapeCharSpec
  split_ifs with h1 h2 h3 h4 h5 h6 h7 h8 h9 <;> try rfl
  · obtain ⟨e1, e2⟩ := hex_small_eq c (by omega)
    rw [e1, e2]
  · omega
  · omega

/-- C1: for every string of Unicode scalar values, `serialize_str` appends
a leading quote, then per character exactly the escape the spec describes
(`\\`, `\"`, the five short escapes, `\u00XX` uppercase for the rest of
U+0000–U+001F, raw minimal UTF-8 for everything else — nothing else is
ever escaped), then a trailing quote. -/
theorem serialize_str_matches_escape_spec (s : List Nat) (h : ∀ c ∈ s, isScalar c) :
    serialize_str s = 0x22 :: (s.map escapeCharSpec).flatten ++ [0x22] := by
  unfold serialize_str
  have : s.map escapeChar = s.map escapeCharSpec :=
    List.map_congr_left (fun c _ => escapeChar_eq_spec c)
  rw [this]

/-- Witness for C1 at a concrete string exercising a backslash, a quote, a
short escape, a `\u00XX` control and a four-byte character. -/
theorem serialize_str_matches_escape_spec_witness :
    (∀ c ∈ [0x41, 0x5C, 0x22, 0x09, 0x01, 0x1F44F], isScalar c) ∧
      serialize_str [0x41, 0x5C, 0x22, 0x09, 0x01, 0x1F44F] =
        0x22 :: (([0x41, 0x5C, 0x22, 0x09, 0x01, 0x1F44F]).map escapeCharSpec).flatten
          ++ [0x22] :=
  ⟨by decide, serialize_str_matches_escape_spec _ (by decide)⟩

/-- C6: for every signed and unsigned integer of each supported width, the
serializer's decimal ASCII output has no leading zeros (except the literal
`0`), a leading `-` exactly when the value is negative, and parses back to
the original value under standard decimal parsing; in particular the
minimum representable signed value of each width is in range and rendered
correctly via its two's-complement magnitude. -/
theorem integer_serialization_correct :
    (∀ v : Nat, v < 256 → decRendering (serialize_u8 v) v) ∧
    (∀ v : Nat, v < 65536 → decRendering (serialize_u16 v) v) ∧
    (∀ v : Nat, v < 4294967296 → decRendering (serialize_u32 v) v) ∧
    (∀ v : Nat, v < 18446744073709551616 → decRendering (serialize_u64 v) v) ∧
    (∀ v : Int, -128 ≤ v → v < 128 → decRendering (serialize_i8 v) v) ∧
    (∀ v : Int, -32768 ≤ v → v < 32768 → decRendering (serialize_i16 v) v) ∧
    (∀ v : Int, -2147483648 ≤ v → v < 2147483648 →
      decRendering (serialize_i32 v) v) ∧
    (∀ v : Int, -9223372036854775808 ≤ v → v < 9223372036854775808 →
      decRendering (serialize_i64 v) v) := by
  refine ⟨?_, ?_, ?_, ?_, ?_, ?_, ?_, ?_⟩
  · exact fun v _ => unsigned_decRendering v
  · exact fun v _ => unsigned_decRendering v
  · exact fun v _ => unsigned_decRendering v
  · exact fun v _ => unsigned_decRendering v
  · exact fun v h1 h2 => signed_decRendering 128 (by omega) v (by exact_mod_cast h1) (by exact_mod_cast h2)
  · exact fun v h1 h2 => signed_decRendering 32768 (by omega) v (by exact_mod_cast h1) (by exact_mod_cast h2)
  · exact fun v h1 h2 => signed_decRendering 2147483648 (by omega) v (by exact_mod_cast h1) (by exact_mod_cast h2)
  · exact fun v h1 h2 => signed_decRendering 9223372036854775808 (by omega) v (by exact_mod_cast h1) (by exact_mod_cast h2)

/-- Witness for C6 at `u8` value 255 and at the minimum `i64`, the value
the claim singles out as the overflow edge case. -/
theorem integer_serialization_correct_witness :
    decRendering (serialize_u8 255) 255 ∧
      decRendering (serialize_i64 (-9223372036854775808)) (-9223372036854775808) :=
  ⟨integer_serialization_correct.1 255 (by norm_num),
    integer_serialization_correct.2.2.2.2.2.2.2 (-9223372036854775808) (by norm_num)
      (by norm_num)⟩

/-! ## UTF-8 lemmas -/

theorem utf8Decode_encode_cons (c : Nat) (hc : isScalar c) (bs : List Nat) :
    utf8Decode (utf8EncodeChar c ++ bs) = (utf8Decode bs).map (fun cs => c :: cs) := by
  unfold utf8EncodeChar
  by_cases h1 : c < 0x80
  · rw [if_pos h1]
    show utf8Decode (c :: bs) = _
    rw [utf8Decode, if_pos h1]
  · rw [if_neg h1]
    by_cases h2 : c < 0x800
    · rw [if_pos h2]
      show utf8Decode ((0xC0 + c / 64) :: (0x80 + c % 64) :: bs) = _
      rw [utf8Decode]
      rw [if_neg (by omega), if_pos (by constructor <;> omega)]
      rw [utf8Decode2]
      rw [if_pos (by constructor <;> omega)]
      have : (0xC0 + c / 64 - 0xC0) * 64 + (0x80 + c % 64 - 0x80) = c := by omega
      rw [this]
    · rw [if_neg h2]
      by_cases h3 : c < 0x10000
      · rw [if_pos h3]
        have hsur : c < 0xD800 ∨ 0xE000 ≤ c := by
          rcases hc with h | ⟨h, _⟩
          · exact Or.inl h
          · exact Or.inr h
        show utf8Decode
            ((0xE0 + c / 4096) :: (0x80 + c / 64 % 64) :: (0x80 + c % 64) :: bs) = _
        rw [utf8Decode]
        rw [if_neg (by omega), if_neg (by omega), if_pos (by constructor <;> omega)]
        rw [utf8Decode3]
        rw [if_pos ?side]
        case side =>
          refine ⟨?_, by omega, by omega⟩
          by_cases he0 : c < 0x1000
          · exact Or.inl ⟨by omega, by omega, by omega⟩
          · by_cases hed : 0xD000 ≤ c ∧ c < 0xE000
            · refine Or.inr (Or.inl ⟨by omega, by omega, by omega⟩)
            · refine Or.inr (Or.inr ⟨by omega, by omega, by omega, by omega⟩)
        have : (0xE0 + c / 4096 - 0xE0) * 4096 + (0x80 + c / 64 % 64 - 0x80) * 64 +
            (0x80 + c % 64 - 0x80) = c := by omega
        rw [this]
      · rw [if_neg h3]
        have h4 : c < 0x110000 := by
          rcases hc with h | ⟨_, h⟩
          · omega
          · exact h
        show utf8Decode
            ((0xF0 + c / 262144) :: (0x80 + c / 4096 % 64) :: (0x80 + c / 64 % 64) ::
              (0x80 + c % 64) :: bs) = _
        rw [utf8Decode]
        rw [if_neg (by omega), if_neg (by omega), if_neg (by omega),
          if_pos (by constructor <;> omega)]
        rw [utf8Decode4]
        rw [if_pos ?side2]
        case side2 =>
          refine ⟨?_, ⟨by omega, by omega⟩, by omega, by omega⟩
          by_cases hf0 : c < 0x40000
          · exact Or.inl ⟨by omega, by omega, by omega⟩
          · by_cases hf4 : 0x100000 ≤ c
            · refine Or.inr (Or.inl ⟨by omega, by omega, by omega⟩)
            · refine Or.inr (Or.inr ⟨by omega, by omega, by omega, by omega⟩)
        have : (0xF0 + c / 262144 - 0xF0) * 262144 + (0x80 + c / 4096 % 64 - 0x80) * 4096 +
            (0x80 + c / 64 % 64 - 0x80) * 64 + (0x80 + c % 64 - 0x80) = c := by omega
        rw [this]

theorem utf8EncodeChar_ascii (c : Nat) (h : c < 0x80) : utf8EncodeChar c = [c] := by
  unfold utf8EncodeChar
  rw [if_pos h]

theorem utf8Decode_flatten_encode (u : List Nat) (h : ∀ c ∈ u, isScalar c) :
    utf8Decode ((u.map utf8EncodeChar).flatten) = some u := by
  induction u with
  | nil => rfl
  | cons c u ih =>
      rw [List.map_cons, List.flatten_cons,
        utf8Decode_encode_cons c (h c (List.mem_cons_self c u)),
        ih (fun x hx => h x (List.mem_cons_of_mem c hx))]
      rfl

/-- A byte sequence is a valid UTF-8 encoding: it is the concatenated
encoding of some sequence of Unicode scalar values. -/
def ValidEnc (bs : List Nat) : Prop :=
  ∃ u : List Nat, (∀ c ∈ u, isScalar c) ∧ bs = (u.map utf8EncodeChar).flatten

theorem ValidEnc_nil : ValidEnc [] := ⟨[], by simp, rfl⟩

theorem ValidEnc_encodeChar {c : Nat} (hc : isScalar c) : ValidEnc (utf8EncodeChar c) :=
  ⟨[c], by simpa using hc, by simp⟩

theorem ValidEnc_append {as bs : List Nat} (h1 : ValidEnc as) (h2 : ValidEnc bs) :
    ValidEnc (as ++ bs) := by
  obtain ⟨u1, hu1, e1⟩ := h1
  obtain ⟨u2, hu2, e2⟩ := h2
  refine ⟨u1 ++ u2, ?_, ?_⟩
  · intro c hc
    rcases List.mem_append.mp hc with h | h
    · exact hu1 c h
    · exact hu2 c h
  · rw [e1, e2, List.map_append, List.flatten_append]

theorem ValidEnc_singleton_ascii {b : Nat} (h : b < 0x80) : ValidEnc [b] := by
  refine ⟨[b], ?_, ?_⟩
  · intro c hc
    simp only [List.mem_singleton] at hc
    subst hc
    exact Or.inl (by omega)
  · simp [utf8EncodeChar_ascii b h]

theorem ValidEnc_utf8Decode {bs : List Nat} (h : ValidEnc bs) :
    ∃ u, utf8Decode bs = some u := by
  obtain ⟨u, hu, e⟩ := h
  exact ⟨u, e ▸ utf8Decode_flatten_encode u hu⟩

set_option maxRecDepth 8192 in
theorem utf8Decode_inv_aux : ∀ (n : Nat) (bs u : List Nat), bs.length ≤ n →
    utf8Decode bs = some u →
    (∀ c ∈ u, isScalar c) ∧ bs = (u.map utf8EncodeChar).flatten := by
  intro n
  induction n with
  | zero =>
      intro bs u hlen h
      cases bs with
      | nil =>
          rw [utf8Decode] at h
          injection h with h
          subst h
          exact ⟨by simp, rfl⟩
      | cons b rest => simp at hlen
  | succ n ih =>
      intro bs u hlen h
      cases bs with
      | nil =>
          rw [utf8Decode] at h
          injection h with h
          subst h
          exact ⟨by simp, rfl⟩
      | cons b1 rest =>
          simp only [List.length_cons] at hlen
          rw [utf8Decode] at h
          by_cases h1 : b1 < 0x80
          · rw [if_pos h1] at h
            obtain ⟨u', hrest, hu⟩ := Option.map_eq_some'.mp h
            subst hu
            obtain ⟨hs, he⟩ := ih rest u' (by omega) hrest
            refine ⟨?_, ?_⟩
            · intro c hc
              rcases List.mem_cons.mp hc with h | h
              · subst h; exact Or.inl (by omega)
              · exact hs c h
            · rw [List.map_cons, List.flatten_cons, utf8EncodeChar_ascii b1 h1, ← he]
              rfl
          · rw [if_neg h1] at h
            by_cases h2 : 0xC2 ≤ b1 ∧ b1 ≤ 0xDF
            · rw [if_pos h2] at h
              cases rest with
              | nil => rw [utf8Decode2] at h; exact absurd h (by simp)
              | cons b2 rest2 =>
                  rw [utf8Decode2] at h
                  by_cases hb2 : 0x80 ≤ b2 ∧ b2 ≤ 0xBF
                  · rw [if_pos hb2] at h
                    obtain ⟨u', hrest, hu⟩ := Option.map_eq_some'.mp h
                    subst hu
                    simp only [List.length_cons] at hlen
                    obtain ⟨hs, he⟩ := ih rest2 u' (by omega) hrest
                    have henc : utf8EncodeChar ((b1 - 0xC0) * 64 + (b2 - 0x80)) =
                        [b1, b2] := by
                      unfold utf8EncodeChar
                      rw [if_neg (by omega), if_pos (by omega)]
                      have e1 : 0xC0 + ((b1 - 0xC0) * 64 + (b2 - 0x80)) / 64 = b1 := by
                        omega
                      have e2 : 0x80 + ((b1 - 0xC0) * 64 + (b2 - 0x80)) % 64 = b2 := by
                        omega
                      rw [e1, e2]
                    refine ⟨?_, ?_⟩
                    · intro c hc
                      rcases List.mem_cons.mp hc with h | h
                      · subst h; exact Or.inl (by omega)
                      · exact hs c h
                    · rw [List.map_cons, List.flatten_cons, henc, ← he]
                      rfl
                  · rw [if_neg hb2] at h; exact absurd h (by simp)
            · rw [if_neg h2] at h
              by_cases h3 : 0xE0 ≤ b1 ∧ b1 ≤ 0xEF
              · rw [if_pos h3] at h
                match rest with
                | [] =>
                    exact Option.noConfusion
                      ((show utf8Decode3 b1 [] = none from rfl).symm.trans h)
                | [b2] =>
                    exact Option.noConfusion
                      ((show utf8Decode3 b1 [b2] = none from rfl).symm.trans h)
                | b2 :: b3 :: rest3 =>
                  rw [utf8Decode3] at h
                  by_cases hcond : ((b1 = 0xE0 ∧ 0xA0 ≤ b2 ∧ b2 ≤ 0xBF) ∨
                      (b1 = 0xED ∧ 0x80 ≤ b2 ∧ b2 ≤ 0x9F) ∨
                      (b1 ≠ 0xE0 ∧ b1 ≠ 0xED ∧ 0x80 ≤ b2 ∧ b2 ≤ 0xBF)) ∧
                      (0x80 ≤ b3 ∧ b3 ≤ 0xBF)
                  · rw [if_pos hcond] at h
                    obtain ⟨u', hrest, hu⟩ := Option.map_eq_some'.mp h
                    subst hu
                    simp only [List.length_cons] at hlen
                    obtain ⟨hs, he⟩ := ih rest3 u' (by omega) hrest
                    obtain ⟨hcb2, hcb3⟩ := hcond
                    have henc : utf8EncodeChar
                        ((b1 - 0xE0) * 4096 + (b2 - 0x80) * 64 + (b3 - 0x80)) =
                        [b1, b2, b3] := by
                      unfold utf8EncodeChar
                      rw [if_neg (by omega), if_neg (by omega), if_pos (by omega)]
                      have e1 : 0xE0 +
                          ((b1 - 0xE0) * 4096 + (b2 - 0x80) * 64 + (b3 - 0x80)) / 4096 =
                          b1 := by omega
                      have e2 : 0x80 +
                          ((b1 - 0xE0) * 4096 + (b2 - 0x80) * 64 + (b3 - 0x80)) / 64 % 64 =
                          b2 := by omega
                      have e3 : 0x80 +
                          ((b1 - 0xE0) * 4096 + (b2 - 0x80) * 64 + (b3 - 0x80)) % 64 =
                          b3 := by omega
                      rw [e1, e2, e3]
                    refine ⟨?_, ?_⟩
                    · intro c hc
                      rcases List.mem_cons.mp hc with h | h
                      · subst h; omega
                      · exact hs c h
                    · rw [List.map_cons, List.flatten_cons, henc, ← he]
                      rfl
                  · rw [if_neg hcond] at h; exact absurd h (by simp)
              · rw [if_neg h3] at h
                by_cases h4 : 0xF0 ≤ b1 ∧ b1 ≤ 0xF4
                · rw [if_pos h4] at h
                  match rest with
                  | [] =>
                      exact Option.noConfusion
                        ((show utf8Decode4 b1 [] = none from rfl).symm.trans h)
                  | [b2] =>
                      exact Option.noConfusion
                        ((show utf8Decode4 b1 [b2] = none from rfl).symm.trans h)
                  | [b2, b3] =>
                      exact Option.noConfusion
                        ((show utf8Decode4 b1 [b2, b3] = none from rfl).symm.trans h)
                  | b2 :: b3 :: b4 :: rest4 =>
                    rw [utf8Decode4] at h
                    by_cases hcond : ((b1 = 0xF0 ∧ 0x90 ≤ b2 ∧ b2 ≤ 0xBF) ∨
                        (b1 = 0xF4 ∧ 0x80 ≤ b2 ∧ b2 ≤ 0x8F) ∨
                        (b1 ≠ 0xF0 ∧ b1 ≠ 0xF4 ∧ 0x80 ≤ b2 ∧ b2 ≤ 0xBF)) ∧
                        (0x80 ≤ b3 ∧ b3 ≤ 0xBF) ∧ (0x80 ≤ b4 ∧ b4 ≤ 0xBF)
                    · rw [if_pos hcond] at h
                      obtain ⟨u', hrest, hu⟩ := Option.map_eq_some'.mp h
                      subst hu
                      simp only [List.length_cons] at hlen
                      obtain ⟨hs, he⟩ := ih rest4 u' (by omega) hrest
                      obtain ⟨hcb2, hcb3, hcb4⟩ := hcond
                      have henc : utf8EncodeChar
                          ((b1 - 0xF0) * 262144 + (b2 - 0x80) * 4096 +
                            (b3 - 0x80) * 64 + (b4 - 0x80)) = [b1, b2, b3, b4] := by
                        unfold utf8EncodeChar
                        rw [if_neg (by omega), if_neg (by omega), if_neg (by omega)]
                        have e1 : 0xF0 +
                            ((b1 - 0xF0) * 262144 + (b2 - 0x80) * 4096 +
                              (b3 - 0x80) * 64 + (b4 - 0x80)) / 262144 = b1 := by omega
                        have e2 : 0x80 +
                            ((b1 - 0xF0) * 262144 + (b2 - 0x80) * 4096 +
                              (b3 - 0x80) * 64 + (b4 - 0x80)) / 4096 % 64 = b2 := by omega
                        have e3 : 0x80 +
                            ((b1 - 0xF0) * 262144 + (b2 - 0x80) * 4096 +
                              (b3 - 0x80) * 64 + (b4 - 0x80)) / 64 % 64 = b3 := by omega
                        have e4 : 0x80 +
                            ((b1 - 0xF0) * 262144 + (b2 - 0x80) * 4096 +
                              (b3 - 0x80) * 64 + (b4 - 0x80)) % 64 = b4 := by omega
                        rw [e1, e2, e3, e4]
                      refine ⟨?_, ?_⟩
                      · intro c hc
                        rcases List.mem_cons.mp hc with h | h
                        · subst h; omega
                        · exact hs c h
                      · rw [List.map_cons, List.flatten_cons, henc, ← he]
                        rfl
                    · rw [if_neg hcond] at h; exact absurd h (by simp)
                · rw [if_neg h4] at h; exact absurd h (by simp)

theorem utf8Decode_inv (bs u : List Nat) (h : utf8Decode bs = some u) :
    (∀ c ∈ u, isScalar c) ∧ bs = (u.map utf8EncodeChar).flatten :=
  utf8Decode_inv_aux bs.length bs u le_rfl h

/-! ## Step lemmas for the unescape state machine -/

theorem charTryFrom_eq_some {n : Nat} (h : isScalar n) : charTryFrom n = some n :=
  if_pos h

theorem charTryFrom_eq_none {n : Nat} (h : ¬ isScalar n) : charTryFrom n = none :=
  if_neg h

theorem unescapeLoop_nil (opn inU : Bool) (tmp out : List Nat) :
    unescapeLoop [] opn inU tmp out =
      match utf8Decode out with
      | some s => .ok s
      | none => .error .InvalidUnicodeCodePoint := by
  rw [unescapeLoop]

theorem unescapeLoop_normal_copy (b : Nat) (rest tmp out : List Nat) (hb : b ≠ 0x5C) :
    unescapeLoop (b :: rest) false false tmp out =
      unescapeLoop rest false false tmp (out ++ [b]) := by
  rw [unescapeLoop]
  simp only [Bool.false_eq_true, if_false]
  rw [if_neg hb]

theorem unescapeLoop_normal_slash (rest tmp out : List Nat) :
    unescapeLoop (0x5C :: rest) false false tmp out =
      unescapeLoop rest true false tmp out := by
  rw [unescapeLoop]
  simp only [Bool.false_eq_true, if_false]
  rw [if_pos trivial]

theorem unescapeLoop_esc_literal (b : Nat) (rest tmp out : List Nat)
    (hb : b = 0x22 ∨ b = 0x2F ∨ b = 0x5C) :
    unescapeLoop (b :: rest) true false tmp out =
      unescapeLoop rest false false tmp (out ++ [b]) := by
  rw [unescapeLoop]
  simp only [Bool.false_eq_true, if_false, if_true]
  rw [if_pos hb]

theorem unescapeLoop_esc_b (rest tmp out : List Nat) :
    unescapeLoop (0x62 :: rest) true false tmp out =
      unescapeLoop rest false false tmp (out ++ [BACKSPACE]) := by
  rw [unescapeLoop]
  simp only [Bool.false_eq_true, if_false, if_true]
  all_goals rfl

theorem unescapeLoop_esc_f (rest tmp out : List Nat) :
    unescapeLoop (0x66 :: rest) true false tmp out =
      unescapeLoop rest false false tmp (out ++ [FORMFEED]) := by
  rw [unescapeLoop]
  simp only [Bool.false_eq_true, if_false, if_true]
  all_goals rfl

theorem unescapeLoop_esc_n (rest tmp out : List Nat) :
    unescapeLoop (0x6E :: rest) true false tmp out =
      unescapeLoop rest false false tmp (out ++ [LINEFEED]) := by
  rw [unescapeLoop]
  simp only [Bool.false_eq_true, if_false, if_true]
  all_goals rfl

theorem unescapeLoop_esc_r (rest tmp out : List Nat) :
    unescapeLoop (0x72 :: rest) true false tmp out =
      unescapeLoop rest false false tmp (out ++ [CARRIAGE_RETURN]) := by
  rw [unescapeLoop]
  simp only [Bool.false_eq_true, if_false, if_true]
  all_goals rfl

theorem unescapeLoop_esc_t (rest tmp out : List Nat) :
    unescapeLoop (0x74 :: rest) true false tmp out =
      unescapeLoop rest false false tmp (out ++ [HORIZONTAL_TAB]) := by
  rw [unescapeLoop]
  simp only [Bool.false_eq_true, if_false, if_true]
  all_goals rfl

theorem unescapeLoop_esc_u (rest tmp out : List Nat) :
    unescapeLoop (0x75 :: rest) true false tmp out =
      unescapeLoop rest true true tmp out := by
  rw [unescapeLoop]
  simp only [Bool.false_eq_true, if_false, if_true]
  all_goals rfl

theorem unescapeLoop_esc_bad (b : Nat) (rest tmp out : List Nat)
    (h22 : b ≠ 0x22) (h2F : b ≠ 0x2F) (h5C : b ≠ 0x5C) (h62 : b ≠ 0x62)
    (h66 : b ≠ 0x66) (h6E : b ≠ 0x6E) (h72 : b ≠ 0x72) (h74 : b ≠ 0x74)
    (h75 : b ≠ 0x75) :
    unescapeLoop (b :: rest) true false tmp out = .error .InvalidEscape := by
  rw [unescapeLoop]
  simp only [Bool.false_eq_true, if_false, if_true]
  rw [if_neg (by tauto), if_neg h62, if_neg h66, if_neg h6E, if_neg h72, if_neg h74,
    if_neg h75]

theorem unescapeLoop_uni_nonhex (b : Nat) (rest : List Nat) (opn : Bool)
    (tmp out : List Nat) (hb : ¬ isHexDigitByte b) :
    unescapeLoop (b :: rest) opn true tmp out = .error .InvalidEscape := by
  rw [unescapeLoop]
  simp only [if_true]
  rw [if_neg hb]

theorem unescapeLoop_uni_acc (b : Nat) (rest : List Nat) (opn : Bool)
    (tmp out : List Nat) (hb : isHexDigitByte b) (hlen : tmp.length ≤ 2) :
    unescapeLoop (b :: rest) opn true tmp out =
      unescapeLoop rest opn true (tmp ++ [b]) out := by
  match tmp, hlen with
  | [], _ =>
      rw [unescapeLoop]
      simp only [if_true]
      rw [if_pos hb]
      all_goals rfl
  | [t1], _ =>
      rw [unescapeLoop]
      simp only [if_true]
      rw [if_pos hb]
      all_goals rfl
  | [t1, t2], _ =>
      rw [unescapeLoop]
      simp only [if_true]
      rw [if_pos hb]
      all_goals rfl

theorem unescapeLoop_uni_complete (t1 t2 t3 b : Nat) (rest : List Nat) (opn : Bool)
    (out : List Nat) (hb : isHexDigitByte b) :
    unescapeLoop (b :: rest) opn true [t1, t2, t3] out =
      match charTryFrom (hex_decode t1 t2 t3 b) with
      | some cp => unescapeLoop rest false false [] (out ++ utf8EncodeChar cp)
      | none => .error .InvalidEscape := by
  rw [unescapeLoop]
  simp only [if_true]
  rw [if_pos hb]
  all_goals rfl

theorem unescapeLoop_copy_char (c : Nat) (hc : isScalar c) (hne : c ≠ 0x5C)
    (rest tmp out : List Nat) :
    unescapeLoop (utf8EncodeChar c ++ rest) false false tmp out =
      unescapeLoop rest false false tmp (out ++ utf8EncodeChar c) := by
  unfold utf8EncodeChar
  by_cases h1 : c < 0x80
  · rw [if_pos h1]
    exact unescapeLoop_normal_copy c rest tmp out hne
  · rw [if_neg h1]
    by_cases h2 : c < 0x800
    · rw [if_pos h2]
      show unescapeLoop ((0xC0 + c / 64) :: (0x80 + c % 64) :: rest) false false tmp out = _
      rw [unescapeLoop_normal_copy _ _ _ _ (by omega),
        unescapeLoop_normal_copy _ _ _ _ (by omega), List.append_assoc]
      rfl
    · rw [if_neg h2]
      by_cases h3 : c < 0x10000
      · rw [if_pos h3]
        show unescapeLoop
            ((0xE0 + c / 4096) :: (0x80 + c / 64 % 64) :: (0x80 + c % 64) :: rest)
            false false tmp out = _
        rw [unescapeLoop_normal_copy _ _ _ _ (by omega),
          unescapeLoop_normal_copy _ _ _ _ (by omega),
          unescapeLoop_normal_copy _ _ _ _ (by omega),
          List.append_assoc, List.append_assoc]
        rfl
      · rw [if_neg h3]
        show unescapeLoop
            ((0xF0 + c / 262144) :: (0x80 + c / 4096 % 64) :: (0x80 + c / 64 % 64) ::
              (0x80 + c % 64) :: rest) false false tmp out = _
        rw [unescapeLoop_normal_copy _ _ _ _ (by omega),
          unescapeLoop_normal_copy _ _ _ _ (by omega),
          unescapeLoop_normal_copy _ _ _ _ (by omega),
          unescapeLoop_normal_copy _ _ _ _ (by omega),
          List.append_assoc, List.append_assoc, List.append_assoc]
        rfl

theorem unescapeLoop_escapeChar (c : Nat) (hc : isScalar c)
    (hctl : c < 0x20 → c = 0x08 ∨ c = 0x09 ∨ c = 0x0A ∨ c = 0x0C ∨ c = 0x0D)
    (rest tmp out : List Nat) :
    unescapeLoop (escapeChar c ++ rest) false false tmp out =
      unescapeLoop rest false false tmp (out ++ utf8EncodeChar c) := by
  unfold escapeChar
  by_cases e1 : c = 0x5C
  · rw [if_pos e1]
    show unescapeLoop (0x5C :: 0x5C :: rest) false false tmp out = _
    rw [unescapeLoop_normal_slash, unescapeLoop_esc_literal _ _ _ _ (by tauto), e1,
      utf8EncodeChar_ascii 0x5C (by omega)]
  · rw [if_neg e1]
    by_cases e2 : c = 0x22
    · rw [if_pos e2]
      show unescapeLoop (0x5C :: 0x22 :: rest) false false tmp out = _
      rw [unescapeLoop_normal_slash, unescapeLoop_esc_literal _ _ _ _ (by tauto), e2,
        utf8EncodeChar_ascii 0x22 (by omega)]
    · rw [if_neg e2]
      by_cases e3 : c = 0x08
      · rw [if_pos e3]
        show unescapeLoop (0x5C :: 0x62 :: rest) false false tmp out = _
        rw [unescapeLoop_normal_slash, unescapeLoop_esc_b, e3,
          utf8EncodeChar_ascii 0x08 (by omega)]
        rfl
      · rw [if_neg e3]
        by_cases e4 : c = 0x09
        · rw [if_pos e4]
          show unescapeLoop (0x5C :: 0x74 :: rest) false false tmp out = _
          rw [unescapeLoop_normal_slash, unescapeLoop_esc_t, e4,
            utf8EncodeChar_ascii 0x09 (by omega)]
          rfl
        · rw [if_neg e4]
          by_cases e5 : c = 0x0A
          · rw [if_pos e5]
            show unescapeLoop (0x5C :: 0x6E :: rest) false false tmp out = _
            rw [unescapeLoop_normal_slash, unescapeLoop_esc_n, e5,
              utf8EncodeChar_ascii 0x0A (by omega)]
            rfl
          · rw [if_neg e5]
            by_cases e6 : c = 0x0C
            · rw [if_pos e6]
              show unescapeLoop (0x5C :: 0x66 :: rest) false false tmp out = _
              rw [unescapeLoop_normal_slash, unescapeLoop_esc_f, e6,
                utf8EncodeChar_ascii 0x0C (by omega)]
              rfl
            · rw [if_neg e6]
              by_cases e7 : c = 0x0D
              · rw [if_pos e7]
                show unescapeLoop (0x5C :: 0x72 :: rest) false false tmp out = _
                rw [unescapeLoop_normal_slash, unescapeLoop_esc_r, e7,
                  utf8EncodeChar_ascii 0x0D (by omega)]
                rfl
              · rw [if_neg e7]
                have e8 : ¬ c ≤ 0x1F := by
                  intro hle
                  rcases hctl (by omega) with h | h | h | h | h <;> omega
                rw [if_neg e8]
                exact unescapeLoop_copy_char c hc e1 rest tmp out

theorem unescapeLoop_escapeBody (s : List Nat) (hs : ∀ c ∈ s, isScalar c)
    (hctl : ∀ c ∈ s, c < 0x20 → c = 0x08 ∨ c = 0x09 ∨ c = 0x0A ∨ c = 0x0C ∨ c = 0x0D)
    (tmp out : List Nat) :
    unescapeLoop ((s.map escapeChar).flatten) false false tmp out =
      unescapeLoop [] false false tmp (out ++ (s.map utf8EncodeChar).flatten) := by
  induction s generalizing out with
  | nil => simp
  | cons c s ih =>
      rw [List.map_cons, List.flatten_cons,
        unescapeLoop_escapeChar c (hs c (List.mem_cons_self c s))
          (hctl c (List.mem_cons_self c s)),
        ih (fun x hx => hs x (List.mem_cons_of_mem c hx))
          (fun x hx => hctl x (List.mem_cons_of_mem c hx)),
        List.map_cons, List.flatten_cons, ← List.append_assoc]

/-- C2: for every string of Unicode scalar values containing no control
characters below U+0020 other than the five that get short escapes,
unescaping the body produced by the string escaper (the `serialize_str`
output without its surrounding quotes) gives back exactly the original
string. -/
theorem unescape_escapeBody_roundtrip (s : List Nat) (hs : ∀ c ∈ s, isScalar c)
    (hctl : ∀ c ∈ s, c < 0x20 → c = 0x08 ∨ c = 0x09 ∨ c = 0x0A ∨ c = 0x0C ∨ c = 0x0D) :
    unescape ((s.map escapeChar).flatten) = .ok s ∧
      serialize_str s = 0x22 :: (s.map escapeChar).flatten ++ [0x22] := by
  refine ⟨?_, rfl⟩
  unfold unescape
  rw [unescapeLoop_escapeBody s hs hctl, unescapeLoop_nil]
  simp only [List.nil_append]
  rw [utf8Decode_flatten_encode s hs]

/-- Witness for C2 at a concrete string exercising a quote, a backslash, a
short-escaped control, an ASCII letter and a two-byte character. -/
theorem unescape_escapeBody_roundtrip_witness :
    (∀ c ∈ [0x61, 0x22, 0x5C, 0x0A, 0xE4], isScalar c) ∧
      unescape (([0x61, 0x22, 0x5C, 0x0A, 0xE4].map escapeChar).flatten) =
        .ok [0x61, 0x22, 0x5C, 0x0A, 0xE4] :=
  ⟨by decide,
    (unescape_escapeBody_roundtrip [0x61, 0x22, 0x5C, 0x0A, 0xE4] (by decide)
      (by decide)).1⟩

theorem utf8EncodeChar_head_high (c : Nat) (h : 0x80 ≤ c) :
    ∃ b tl, utf8EncodeChar c = b :: tl ∧ 0x80 ≤ b := by
  unfold utf8EncodeChar
  rw [if_neg (by omega)]
  split_ifs with h2 h3
  · exact ⟨_, _, rfl, by omega⟩
  · exact ⟨_, _, rfl, by omega⟩
  · exact ⟨_, _, rfl, by omega⟩

theorem unescapeLoop_no_iucp : ∀ (u : List Nat), (∀ c ∈ u, isScalar c) →
    ∀ (opn inU : Bool) (tmp out : List Nat), tmp.length ≤ 3 → ValidEnc out →
    unescapeLoop ((u.map utf8EncodeChar).flatten) opn inU tmp out ≠
      .error .InvalidUnicodeCodePoint := by
  intro u
  induction u with
  | nil =>
      intro _ opn inU tmp out _ hout
      obtain ⟨v, hv⟩ := ValidEnc_utf8Decode hout
      show unescapeLoop [] opn inU tmp out ≠ _
      rw [unescapeLoop_nil, hv]
      simp
  | cons c u ih =>
      intro hu opn inU tmp out htmp hout
      have hc : isScalar c := hu c (List.mem_cons_self c u)
      have hu' : ∀ x ∈ u, isScalar x := fun x hx => hu x (List.mem_cons_of_mem c hx)
      rw [List.map_cons, List.flatten_cons]
      cases inU with
      | true =>
          by_cases hlo : c < 0x80
          · rw [utf8EncodeChar_ascii c hlo, List.cons_append, List.nil_append]
            by_cases hx : isHexDigitByte c
            · match tmp, htmp with
              | [], _ =>
                  rw [unescapeLoop_uni_acc c _ opn [] out hx (by simp)]
                  exact ih hu' opn true [c] out (by simp) hout
              | [t1], _ =>
                  rw [unescapeLoop_uni_acc c _ opn [t1] out hx (by simp)]
                  exact ih hu' opn true [t1, c] out (by simp) hout
              | [t1, t2], _ =>
                  rw [unescapeLoop_uni_acc c _ opn [t1, t2] out hx (by simp)]
                  exact ih hu' opn true [t1, t2, c] out (by simp) hout
              | [t1, t2, t3], _ =>
                  rw [unescapeLoop_uni_complete t1 t2 t3 c _ opn out hx]
                  by_cases hcp : isScalar (hex_decode t1 t2 t3 c)
                  · rw [charTryFrom_eq_some hcp]
                    exact ih hu' false false []
                      (out ++ utf8EncodeChar (hex_decode t1 t2 t3 c)) (by simp)
                      (ValidEnc_append hout (ValidEnc_encodeChar hcp))
                  · rw [charTryFrom_eq_none hcp]
                    simp
            · rw [unescapeLoop_uni_nonhex c _ opn tmp out hx]
              simp
          · obtain ⟨b, tl, henc, hb⟩ := utf8EncodeChar_head_high c (by omega)
            rw [henc, List.cons_append]
            rw [unescapeLoop_uni_nonhex b _ opn tmp out (by omega)]
            simp
      | false =>
          cases opn with
          | true =>
              by_cases hlo : c < 0x80
              · rw [utf8EncodeChar_ascii c hlo, List.cons_append, List.nil_append]
                by_cases hlit : c = 0x22 ∨ c = 0x2F ∨ c = 0x5C
                · rw [unescapeLoop_esc_literal c _ tmp out hlit]
                  exact ih hu' false false tmp (out ++ [c]) htmp
                    (ValidEnc_append hout (ValidEnc_singleton_ascii hlo))
                · by_cases h62 : c = 0x62
                  · subst h62
                    rw [unescapeLoop_esc_b]
                    exact ih hu' false false tmp (out ++ [BACKSPACE]) htmp
                      (ValidEnc_append hout (ValidEnc_singleton_ascii (by decide)))
                  · by_cases h66 : c = 0x66
                    · subst h66
                      rw [unescapeLoop_esc_f]
                      exact ih hu' false false tmp (out ++ [FORMFEED]) htmp
                        (ValidEnc_append hout (ValidEnc_singleton_ascii (by decide)))
                    · by_cases h6E : c = 0x6E
                      · subst h6E
                        rw [unescapeLoop_esc_n]
                        exact ih hu' false false tmp (out ++ [LINEFEED]) htmp
                          (ValidEnc_append hout (ValidEnc_singleton_ascii (by decide)))
                      · by_cases h72 : c = 0x72
                        · subst h72
                          rw [unescapeLoop_esc_r]
                          exact ih hu' false false tmp (out ++ [CARRIAGE_RETURN]) htmp
                            (ValidEnc_append hout
                              (ValidEnc_singleton_ascii (by decide)))
                        · by_cases h74 : c = 0x74
                          · subst h74
                            rw [unescapeLoop_esc_t]
                            exact ih hu' false false tmp (out ++ [HORIZONTAL_TAB]) htmp
                              (ValidEnc_append hout
                                (ValidEnc_singleton_ascii (by decide)))
                          · by_cases h75 : c = 0x75
                            · subst h75
                              rw [unescapeLoop_esc_u]
                              exact ih hu' true true tmp out htmp hout
                            · rw [unescapeLoop_esc_bad c _ tmp out
                                (by tauto) (by tauto) (by tauto) h62 h66 h6E h72 h74 h75]
                              simp
              · obtain ⟨b, tl, henc, hb⟩ := utf8EncodeChar_head_high c (by omega)
                rw [henc, List.cons_append]
                rw [unescapeLoop_esc_bad b _ tmp out (by omega) (by omega) (by omega)
                  (by omega) (by omega) (by omega) (by omega) (by omega) (by omega)]
                simp
          | false =>
              by_cases h5C : c = 0x5C
              · subst h5C
                rw [utf8EncodeChar_ascii 0x5C (by omega), List.cons_append,
                  List.nil_append, unescapeLoop_normal_slash]
                exact ih hu' true false tmp out htmp hout
              · rw [unescapeLoop_copy_char c hc h5C _ tmp out]
                exact ih hu' false false tmp (out ++ utf8EncodeChar c) htmp
                  (ValidEnc_append hout (ValidEnc_encodeChar hc))

/-- C4 counterexample: the claim quantifies over every input byte slice,
but on the non-UTF-8 input `[0xFF]` the byte is copied verbatim to the
output, the final UTF-8 validation fails, and `unescape` does return
`InvalidUnicodeCodePoint`. -/
theorem unescape_invalid_codepoint_reachable :
    unescape [0xFF] = .error .InvalidUnicodeCodePoint := rfl

/-- C4 (amended): for every input byte slice that is itself valid UTF-8,
every code path of `unescape` appends only valid UTF-8 to the output
(verbatim-copied bytes re-assemble the input's own character encodings,
escape expansions append single ASCII bytes, and `\uXXXX` expansions append
the UTF-8 encoding of a checked scalar value), so the final UTF-8
validation never fails and `unescape` never returns
`InvalidUnicodeCodePoint`. -/
theorem unescape_valid_input_no_invalid_codepoint (src u : List Nat)
    (h : utf8Decode src = some u) :
    unescape src ≠ .error .InvalidUnicodeCodePoint := by
  obtain ⟨hs, henc⟩ := utf8Decode_inv src u h
  rw [unescape, henc]
  exact unescapeLoop_no_iucp u hs false false [] [] (by simp) ValidEnc_nil

/-- Witness for the amended C4 on a concrete valid UTF-8 input containing
an escape and a two-byte character. -/
theorem unescape_valid_input_no_invalid_codepoint_witness :
    utf8Decode [0x5C, 0x6E, 0xC3, 0xA4] = some [0x5C, 0x6E, 0xE4] ∧
      unescape [0x5C, 0x6E, 0xC3, 0xA4] ≠ .error .InvalidUnicodeCodePoint :=
  ⟨rfl, unescape_valid_input_no_invalid_codepoint [0x5C, 0x6E, 0xC3, 0xA4]
    [0x5C, 0x6E, 0xE4] rfl⟩

/-- C3: the code accepts input that ends inside an escape.  A lone trailing
backslash is silently dropped (`unescape "\\" = Ok ""`), and an input
ending inside a `\u` escape with only two hex digits collected is also
silently accepted (`unescape "a\u12" = Ok "a"`): the loop ends without any
end-of-input check on the `open` / `in_unicode` flags, contradicting the
spec's requirement to fail with `InvalidEscape`. -/
theorem unescape_incomplete_escape_accepted :
    unescape [0x5C] = .ok [] ∧ unescape [0x61, 0x5C, 0x75, 0x31, 0x32] = .ok [0x61] :=
  ⟨rfl, rfl⟩

/-- C5: `unescape` fails with `InvalidEscape` (1) in the escape state on
any byte other than the nine bytes `"` `/` `\` `b` `f` `n` `r` `t` `u`,
(2) in the `\u` state on any non-hex byte before 4 hex digits are
collected, (3) when the 4th hex digit completes a codepoint in the UTF-16
surrogate range U+D800–U+DFFF, and (4) at top level whenever a backslash
is directly followed by a byte outside the nine-byte escape set. -/
theorem unescape_invalid_escape_cases :
    (∀ (b : Nat) (rest tmp out : List Nat), b ≠ 0x22 → b ≠ 0x2F → b ≠ 0x5C →
      b ≠ 0x62 → b ≠ 0x66 → b ≠ 0x6E → b ≠ 0x72 → b ≠ 0x74 → b ≠ 0x75 →
      unescapeLoop (b :: rest) true false tmp out = .error .InvalidEscape) ∧
    (∀ (b : Nat) (rest : List Nat) (opn : Bool) (tmp out : List Nat),
      ¬ isHexDigitByte b →
      unescapeLoop (b :: rest) opn true tmp out = .error .InvalidEscape) ∧
    (∀ (t1 t2 t3 b : Nat) (rest : List Nat) (opn : Bool) (out : List Nat),
      isHexDigitByte b →
      0xD800 ≤ hex_decode t1 t2 t3 b → hex_decode t1 t2 t3 b < 0xE000 →
      unescapeLoop (b :: rest) opn true [t1, t2, t3] out = .error .InvalidEscape) ∧
    (∀ (b : Nat) (rest : List Nat), b ≠ 0x22 → b ≠ 0x2F → b ≠ 0x5C →
      b ≠ 0x62 → b ≠ 0x66 → b ≠ 0x6E → b ≠ 0x72 → b ≠ 0x74 → b ≠ 0x75 →
      unescape (0x5C :: b :: rest) = .error .InvalidEscape) := by
  refine ⟨?_, ?_, ?_, ?_⟩
  · exact fun b rest tmp out h1 h2 h3 h4 h5 h6 h7 h8 h9 =>
      unescapeLoop_esc_bad b rest tmp out h1 h2 h3 h4 h5 h6 h7 h8 h9
  · exact fun b rest opn tmp out h => unescapeLoop_uni_nonhex b rest opn tmp out h
  · intro t1 t2 t3 b rest opn out hb hlo hhi
    rw [unescapeLoop_uni_complete t1 t2 t3 b rest opn out hb,
      charTryFrom_eq_none (by omega)]
  · intro b rest h1 h2 h3 h4 h5 h6 h7 h8 h9
    rw [unescape, unescapeLoop_normal_slash]
    exact unescapeLoop_esc_bad b rest [] [] h1 h2 h3 h4 h5 h6 h7 h8 h9

/-- Witness for C5: `\x` in the escape state, `.` in the `\u` state, the
surrogate `\uDEAD` on its 4th digit, and the top-level input `\'`. -/
theorem unescape_invalid_escape_cases_witness :
    unescapeLoop [0x78] true false [] [] = .error .InvalidEscape ∧
      unescapeLoop [0x2E] false true [] [] = .error .InvalidEscape ∧
      unescapeLoop [0x44] false true [0x44, 0x45, 0x41] [] = .error .InvalidEscape ∧
      unescape [0x5C, 0x27] = .error .InvalidEscape :=
  ⟨unescape_invalid_escape_cases.1 0x78 [] [] [] (by decide) (by decide) (by decide)
      (by decide) (by decide) (by decide) (by decide) (by decide) (by decide),
    unescape_invalid_escape_cases.2.1 0x2E [] false [] [] (by decide),
    unescape_invalid_escape_cases.2.2.1 0x44 0x45 0x41 0x44 [] false [] (by decide)
      (by decide) (by decide),
    unescape_invalid_escape_cases.2.2.2 0x27 [] (by decide) (by decide) (by decide)
      (by decide) (by decide) (by decide) (by decide) (by decide) (by decide)⟩

/-! ## The value encoder — `impl Serializer for &mut Serializer` in
`src/ser/mod.rs`, with the container assemblers -/

/-- The closed set of value shapes the codec supports (§4.5 of the spec):
booleans, unsigned and signed integers (modelled at the widest width),
strings, optionals, sequences, records, and the three supported enum
variant forms.  Field and variant names are strings of scalar values. -/
inductive JsonValue where
  | vBool : Bool → JsonValue
  | vU64 : Nat → JsonValue
  | vI64 : Int → JsonValue
  | vStr : List Nat → JsonValue
  | vOpt : Option JsonValue → JsonValue
  | vSeq : List JsonValue → JsonValue
  | vStruct : List (List Nat × JsonValue) → JsonValue
  | vUnitVariant : List Nat → JsonValue
  | vNewtypeVariant : List Nat → JsonValue → JsonValue
  | vStructVariant : List Nat → List (List Nat × JsonValue) → JsonValue

mutual

/-- Bytes appended to the buffer when serializing one value.  Scalar,
string, option and variant arms are translated from `serialize_bool`,
`serialize_u64`/`serialize_i64`, `serialize_str`, `serialize_none` /
`serialize_some`, `serialize_unit_variant`, `serialize_newtype_variant`,
`serialize_seq`, `serialize_struct` and `serialize_struct_variant` in
`src/ser/mod.rs`.  The element/field loops and the closing `}`/`]` of the
container assemblers live in `src/ser/seq.rs` and `src/ser/struct_.rs`,
which are not part of the sources; they are modelled from the spec
(§4.5: open the delimiter, emit `,` before every element except the first,
recurse, close the delimiter — a struct variant closes both braces), using
the same first-element flag discipline as `SerializeMap::serialize_key` in
`src/ser/map.rs`. -/
def encodeValue : JsonValue → List Nat
  | .vBool true => [0x74, 0x72, 0x75, 0x65]
  | .vBool false => [0x66, 0x61, 0x6C, 0x73, 0x65]
  | .vU64 n => serialize_u64 n
  | .vI64 n => serialize_i64 n
  | .vStr s => serialize_str s
  | .vOpt none => [0x6E, 0x75, 0x6C, 0x6C]
  | .vOpt (some v) => encodeValue v
  | .vSeq vs => 0x5B :: (encodeSeqBody vs true ++ [0x5D])
  | .vStruct fs => 0x7B :: (encodeStructBody fs true ++ [0x7D])
  | .vUnitVariant name => serialize_str name
  | .vNewtypeVariant name v =>
      0x7B :: (serialize_str name ++ 0x3A :: (encodeValue v ++ [0x7D]))
  | .vStructVariant name fs =>
      0x7B :: (serialize_str name ++ 0x3A :: 0x7B ::
        (encodeStructBody fs true ++ [0x7D, 0x7D]))

/-- Modelled from the spec: the sequence assembler's element loop
(`src/ser/seq.rs`, not in the sources) — a `,` before every element except
the first, tracked by a first-element flag as in `src/ser/map.rs`. -/
def encodeSeqBody : List JsonValue → Bool → List Nat
  | [], _ => []
  | v :: vs, first =>
      (if first then [] else [0x2C]) ++ encodeValue v ++ encodeSeqBody vs false

/-- Modelled from the spec: the struct assembler's field loop
(`src/ser/struct_.rs`, not in the sources) — a `,` before every field
except the first, then the field name as a key, `:`, and the value. -/
def encodeStructBody : List (List Nat × JsonValue) → Bool → List Nat
  | [], _ => []
  | (k, v) :: fs, first =>
      (if first then [] else [0x2C]) ++ serialize_str k ++
        0x3A :: encodeValue v ++ encodeStructBody fs false

end

/-- `to_vec` in `src/ser/mod.rs`: serialize the value and return the raw
buffer. -/
def to_vec (v : JsonValue) : List Nat := encodeValue v

/-- Modelled from the spec (C8): the separator discipline stated
directly — the first item verbatim, every later item preceded by one
`,`. -/
def sepConcat (items : List (List Nat)) : List Nat :=
  match items with
  | [] => []
  | e :: rest => e ++ (rest.map (fun x => 0x2C :: x)).flatten

theorem encodeSeqBody_false_eq (vs : List JsonValue) :
    encodeSeqBody vs false =
      ((vs.map (fun v => 0x2C :: encodeValue v))).flatten := by
  induction vs with
  | nil => rfl
  | cons v vs ih =>
      rw [encodeSeqBody, ih, List.map_cons, List.flatten_cons]
      simp [List.append_assoc]

theorem encodeSeqBody_true_eq (vs : List JsonValue) :
    encodeSeqBody vs true = sepConcat (vs.map encodeValue) := by
  cases vs with
  | nil => rfl
  | cons v vs =>
      rw [encodeSeqBody, encodeSeqBody_false_eq, List.map_cons]
      unfold sepConcat
      simp [List.map_map, Function.comp_def]

theorem encodeStructBody_false_eq (fs : List (List Nat × JsonValue)) :
    encodeStructBody fs false =
      ((fs.map (fun kv => 0x2C :: (serialize_str kv.1 ++ 0x3A :: encodeValue kv.2))).flatten) := by
  induction fs with
  | nil => rfl
  | cons kv fs ih =>
      obtain ⟨k, v⟩ := kv
      rw [encodeStructBody, ih, List.map_cons, List.flatten_cons]
      simp [List.append_assoc]

theorem encodeStructBody_true_eq (fs : List (List Nat × JsonValue)) :
    encodeStructBody fs true =
      sepConcat (fs.map (fun kv => serialize_str kv.1 ++ 0x3A :: encodeValue kv.2)) := by
  cases fs with
  | nil => rfl
  | cons kv fs =>
      obtain ⟨k, v⟩ := kv
      rw [encodeStructBody, encodeStructBody_false_eq, List.map_cons]
      unfold sepConcat
      simp [List.map_map, Function.comp_def]

/-- C8: container bodies follow the separator discipline — a `,` is
emitted before every element or key-value pair except the first (so never
a leading or trailing comma), an empty sequence encodes to `[]`, an empty
record to `{}`, and the two-element examples of the spec assemble with a
single interior comma. -/
theorem container_separator_discipline :
    (∀ vs, encodeValue (.vSeq vs) =
      0x5B :: (sepConcat (vs.map encodeValue) ++ [0x5D])) ∧
    (∀ fs, encodeValue (.vStruct fs) =
      0x7B :: (sepConcat
        (fs.map (fun kv => serialize_str kv.1 ++ 0x3A :: encodeValue kv.2)) ++ [0x7D])) ∧
    encodeValue (.vSeq []) = [0x5B, 0x5D] ∧
    encodeValue (.vStruct []) = [0x7B, 0x7D] ∧
    encodeValue (.vSeq [.vBool true, .vBool false]) =
      [0x5B, 0x74, 0x72, 0x75, 0x65, 0x2C, 0x66, 0x61, 0x6C, 0x73, 0x65, 0x5D] ∧
    encodeValue (.vStruct [([0x61], .vBool true), ([0x62], .vBool false)]) =
      [0x7B, 0x22, 0x61, 0x22, 0x3A, 0x74, 0x72, 0x75, 0x65, 0x2C,
        0x22, 0x62, 0x22, 0x3A, 0x66, 0x61, 0x6C, 0x73, 0x65, 0x7D] := by
  refine ⟨?_, ?_, rfl, rfl, rfl, rfl⟩
  · intro vs
    rw [encodeValue, encodeSeqBody_true_eq]
  · intro fs
    rw [encodeValue, encodeStructBody_true_eq]

/-- C7: a unit variant encodes as its (possibly renamed) variant name as a
bare JSON string; a newtype or struct variant encodes as a JSON object
with exactly one key — the variant name — whose value is the encoding of
the payload; concretely, a unit variant named `number` encodes to
`"number"` and `Err("x")` renamed `err` encodes to `{"err":"x"}`. -/
theorem enum_variant_encoding :
    (∀ name, encodeValue (.vUnitVariant name) = serialize_str name) ∧
    (∀ name v, encodeValue (.vNewtypeVariant name v) =
      0x7B :: (serialize_str name ++ 0x3A :: (encodeValue v ++ [0x7D]))) ∧
    (∀ name fs, encodeValue (.vStructVariant name fs) =
      0x7B :: (serialize_str name ++ 0x3A :: (encodeValue (.vStruct fs) ++ [0x7D]))) ∧
    encodeValue (.vUnitVariant [0x6E, 0x75, 0x6D, 0x62, 0x65, 0x72]) =
      [0x22, 0x6E, 0x75, 0x6D, 0x62, 0x65, 0x72, 0x22] ∧
    encodeValue (.vNewtypeVariant [0x65, 0x72, 0x72] (.vStr [0x78])) =
      [0x7B, 0x22, 0x65, 0x72, 0x72, 0x22, 0x3A, 0x22, 0x78, 0x22, 0x7D] := by
  refine ⟨fun name => rfl, fun name v => rfl, ?_, rfl, rfl⟩
  intro name fs
  simp only [encodeValue]
  simp [List.append_assoc]

/-- C9: an absent optional encodes as the literal `null`, a present
optional encodes exactly as its contained value, and a record with an
absent optional field keeps the field with an explicit `null` value
(`{description: absent-optional}` yields `{"description":null}`). -/
theorem optional_encoding :
    encodeValue (.vOpt none) = [0x6E, 0x75, 0x6C, 0x6C] ∧
    (∀ v, encodeValue (.vOpt (some v)) = encodeValue v) ∧
    encodeValue (.vStruct
      [([0x64, 0x65, 0x73, 0x63, 0x72, 0x69, 0x70, 0x74, 0x69, 0x6F, 0x6E],
        .vOpt none)]) =
      [0x7B, 0x22, 0x64, 0x65, 0x73, 0x63, 0x72, 0x69, 0x70, 0x74, 0x69, 0x6F, 0x6E,
        0x22, 0x3A, 0x6E, 0x75, 0x6C, 0x6C, 0x7D] :=
  ⟨rfl, fun v => rfl, rfl⟩

/-! ## C10: every byte the serializer appends keeps the buffer valid UTF-8 -/

/-- Well-formedness of a value: every embedded string (and every field or
variant name) is a sequence of Unicode scalar values, as Rust's `String` /
`&str` types guarantee. -/
inductive WfValue : JsonValue → Prop where
  | vBool (b : Bool) : WfValue (.vBool b)
  | vU64 (n : Nat) : WfValue (.vU64 n)
  | vI64 (n : Int) : WfValue (.vI64 n)
  | vStr (s : List Nat) : (∀ c ∈ s, isScalar c) → WfValue (.vStr s)
  | vOptNone : WfValue (.vOpt none)
  | vOptSome (v : JsonValue) : WfValue v → WfValue (.vOpt (some v))
  | vSeq (vs : List JsonValue) : (∀ v ∈ vs, WfValue v) → WfValue (.vSeq vs)
  | vStruct (fs : List (List Nat × JsonValue)) :
      (∀ kv ∈ fs, ∀ c ∈ kv.1, isScalar c) → (∀ kv ∈ fs, WfValue kv.2) →
      WfValue (.vStruct fs)
  | vUnitVariant (name : List Nat) : (∀ c ∈ name, isScalar c) →
      WfValue (.vUnitVariant name)
  | vNewtypeVariant (name : List Nat) (v : JsonValue) : (∀ c ∈ name, isScalar c) →
      WfValue v → WfValue (.vNewtypeVariant name v)
  | vStructVariant (name : List Nat) (fs : List (List Nat × JsonValue)) :
      (∀ c ∈ name, isScalar c) →
      (∀ kv ∈ fs, ∀ c ∈ kv.1, isScalar c) → (∀ kv ∈ fs, WfValue kv.2) →
      WfValue (.vStructVariant name fs)

theorem ValidEnc_all_ascii (bs : List Nat) (h : ∀ b ∈ bs, b < 0x80) : ValidEnc bs := by
  induction bs with
  | nil => exact ValidEnc_nil
  | cons b bs ih =>
      show ValidEnc ([b] ++ bs)
      exact ValidEnc_append
        (ValidEnc_singleton_ascii (h b (List.mem_cons_self b bs)))
        (ih (fun x hx => h x (List.mem_cons_of_mem b hx)))

theorem hex_bytes_small : ∀ c, c < 0x20 → (hex c).1 < 0x80 ∧ (hex c).2 < 0x80 := by
  decide

theorem ValidEnc_escapeChar (c : Nat) (hc : isScalar c) : ValidEnc (escapeChar c) := by
  unfold escapeChar
  split_ifs with e1 e2 e3 e4 e5 e6 e7 e8
  · exact ValidEnc_all_ascii _ (by decide)
  · exact ValidEnc_all_ascii _ (by decide)
  · exact ValidEnc_all_ascii _ (by decide)
  · exact ValidEnc_all_ascii _ (by decide)
  · exact ValidEnc_all_ascii _ (by decide)
  · exact ValidEnc_all_ascii _ (by decide)
  · exact ValidEnc_all_ascii _ (by decide)
  · refine ValidEnc_all_ascii _ ?_
    intro b hb
    obtain ⟨x1, x2⟩ := hex_bytes_small c (by omega)
    simp only [List.mem_cons, List.not_mem_nil, or_false] at hb
    rcases hb with rfl | rfl | rfl | rfl | rfl | rfl <;> omega
  · exact ValidEnc_encodeChar hc

theorem ValidEnc_escapeBody (s : List Nat) (hs : ∀ c ∈ s, isScalar c) :
    ValidEnc ((s.map escapeChar).flatten) := by
  induction s with
  | nil => exact ValidEnc_nil
  | cons c s ih =>
      rw [List.map_cons, List.flatten_cons]
      exact ValidEnc_append (ValidEnc_escapeChar c (hs c (List.mem_cons_self c s)))
        (ih (fun x hx => hs x (List.mem_cons_of_mem c hx)))

theorem ValidEnc_serialize_str (s : List Nat) (hs : ∀ c ∈ s, isScalar c) :
    ValidEnc (serialize_str s) := by
  show ValidEnc ([0x22] ++ ((s.map escapeChar).flatten ++ [0x22]))
  exact ValidEnc_append (ValidEnc_singleton_ascii (by omega))
    (ValidEnc_append (ValidEnc_escapeBody s hs) (ValidEnc_singleton_ascii (by omega)))

theorem unsignedDigits_ascii (v : Nat) : ∀ b ∈ unsignedDigits v, b < 0x80 := by
  intro b hb
  have := unsignedDigits_all_digits v b hb
  omega

theorem serialize_signed_ascii (half : Nat) (v : Int) :
    ∀ b ∈ serialize_signed half v, b < 0x80 := by
  intro b hb
  unfold serialize_signed at hb
  split_ifs at hb with h1 h2
  · rcases List.mem_cons.mp hb with h | h
    · omega
    · exact unsignedDigits_ascii half b h
  · rcases List.mem_cons.mp hb with h | h
    · omega
    · exact unsignedDigits_ascii _ b h
  · exact unsignedDigits_ascii _ b hb

theorem encodeSeqBody_valid (vs : List JsonValue)
    (h : ∀ v ∈ vs, ValidEnc (encodeValue v)) :
    ∀ first, ValidEnc (encodeSeqBody vs first) := by
  induction vs with
  | nil => intro first; exact ValidEnc_nil
  | cons v vs ih =>
      intro first
      rw [encodeSeqBody]
      refine ValidEnc_append (ValidEnc_append ?_ (h v (List.mem_cons_self v vs)))
        (ih (fun x hx => h x (List.mem_cons_of_mem v hx)) false)
      cases first
      · exact ValidEnc_singleton_ascii (by omega)
      · exact ValidEnc_nil

theorem encodeStructBody_valid (fs : List (List Nat × JsonValue))
    (hk : ∀ kv ∈ fs, ∀ c ∈ kv.1, isScalar c)
    (hv : ∀ kv ∈ fs, ValidEnc (encodeValue kv.2)) :
    ∀ first, ValidEnc (encodeStructBody fs first) := by
  induction fs with
  | nil => intro first; exact ValidEnc_nil
  | cons kv fs ih =>
      intro first
      obtain ⟨k, v⟩ := kv
      rw [encodeStructBody]
      have hkv := hk (k, v) (List.mem_cons_self _ fs)
      have hvv := hv (k, v) (List.mem_cons_self _ fs)
      refine ValidEnc_append
        (ValidEnc_append (ValidEnc_append ?_ (ValidEnc_serialize_str k hkv)) ?_)
        (ih (fun x hx => hk x (List.mem_cons_of_mem _ hx))
          (fun x hx => hv x (List.mem_cons_of_mem _ hx)) false)
      · cases first
        · exact ValidEnc_singleton_ascii (by omega)
        · exact ValidEnc_nil
      · show ValidEnc ([0x3A] ++ encodeValue v)
        exact ValidEnc_append (ValidEnc_singleton_ascii (by omega)) hvv

theorem encodeValue_valid (v : JsonValue) (h : WfValue v) :
    ValidEnc (encodeValue v) := by
  induction h with
  | vBool b => cases b <;> exact ValidEnc_all_ascii _ (by decide)
  | vU64 n => exact ValidEnc_all_ascii _ (unsignedDigits_ascii n)
  | vI64 n => exact ValidEnc_all_ascii _ (serialize_signed_ascii _ n)
  | vStr s hs => exact ValidEnc_serialize_str s hs
  | vOptNone => exact ValidEnc_all_ascii _ (by decide)
  | vOptSome v hwf ih => exact ih
  | vSeq vs hwf ih =>
      show ValidEnc ([0x5B] ++ (encodeSeqBody vs true ++ [0x5D]))
      exact ValidEnc_append (ValidEnc_singleton_ascii (by omega))
        (ValidEnc_append (encodeSeqBody_valid vs ih true)
          (ValidEnc_singleton_ascii (by omega)))
  | vStruct fs hk hwf ih =>
      show ValidEnc ([0x7B] ++ (encodeStructBody fs true ++ [0x7D]))
      exact ValidEnc_append (ValidEnc_singleton_ascii (by omega))
        (ValidEnc_append (encodeStructBody_valid fs hk ih true)
          (ValidEnc_singleton_ascii (by omega)))
  | vUnitVariant name hn => exact ValidEnc_serialize_str name hn
  | vNewtypeVariant name v hn hwf ih =>
      show ValidEnc ([0x7B] ++ (serialize_str name ++
        ([0x3A] ++ (encodeValue v ++ [0x7D]))))
      exact ValidEnc_append (ValidEnc_singleton_ascii (by omega))
        (ValidEnc_append (ValidEnc_serialize_str name hn)
          (ValidEnc_append (ValidEnc_singleton_ascii (by omega))
            (ValidEnc_append ih (ValidEnc_singleton_ascii (by omega)))))
  | vStructVariant name fs hn hk hwf ih =>
      show ValidEnc ([0x7B] ++ (serialize_str name ++
        ([0x3A] ++ ([0x7B] ++ (encodeStructBody fs true ++ [0x7D, 0x7D])))))
      refine ValidEnc_append (ValidEnc_singleton_ascii (by omega))
        (ValidEnc_append (ValidEnc_serialize_str name hn)
          (ValidEnc_append (ValidEnc_singleton_ascii (by omega))
            (ValidEnc_append (ValidEnc_singleton_ascii (by omega))
              (ValidEnc_append (encodeStructBody_valid fs hk ih true) ?_))))
      exact ValidEnc_all_ascii _ (by decide)

/-- C10: for every well-formed value, the assembled output buffer is a
valid UTF-8 encoding — it decodes (as `String::from_utf8` would) to a
string of scalar values whose UTF-8 bytes are exactly the buffer.  Hence
the unchecked UTF-8 conversion in `to_string` is sound, and `to_string`,
viewed as bytes, equals `to_vec`. -/
theorem serializer_output_valid_utf8 (v : JsonValue) (h : WfValue v) :
    ∃ u, (∀ c ∈ u, isScalar c) ∧ utf8Decode (to_vec v) = some u ∧
      (u.map utf8EncodeChar).flatten = to_vec v := by
  obtain ⟨u, hu, he⟩ := encodeValue_valid v h
  refine ⟨u, hu, ?_, he.symm⟩
  show utf8Decode (encodeValue v) = some u
  rw [he]
  exact utf8Decode_flatten_encode u hu

/-- Witness for C10 at a concrete record containing a string with an
escape and a two-byte character. -/
theorem serializer_output_valid_utf8_witness :
    WfValue (.vStruct [([0x61], .vStr [0x22, 0xE4])]) ∧
      ∃ u, (∀ c ∈ u, isScalar c) ∧
        utf8Decode (to_vec (.vStruct [([0x61], .vStr [0x22, 0xE4])])) = some u ∧
        (u.map utf8EncodeChar).flatten = to_vec (.vStruct [([0x61], .vStr [0x22, 0xE4])]) :=
  have hwf : WfValue (.vStruct [([0x61], .vStr [0x22, 0xE4])]) :=
    WfValue.vStruct _ (by decide)
      (by
        intro kv hkv
        simp only [List.mem_singleton] at hkv
        subst hkv
        exact WfValue.vStr _ (by decide))
  ⟨hwf, serializer_output_valid_utf8 _ hwf⟩
